import Mathlib

/-!
Verification of the YAML Pod-manifest validator (main.go).

This file gives a shallow embedding of the validator: the generic document
tree, the diagnostic reporter, the field accessor, the scalar coercion
`asInt`, and the schema validators (Pod, ObjectMeta, PodSpec, Container,
ContainerPort, Probe, ResourceRequirements, ResourceKV).

Translation conventions:
  - `yaml.Node` becomes `Node` (kind, tag, value, line, content); a mapping
    node stores its pairs flattened in `content` as key, value, key, value,
    exactly as `yaml.v3` does.
  - The mutating `reporter` becomes explicit state passing; since every
    mutation is an append of one diagnostic, each validator is embedded as a
    function returning the list of diagnostics it appends, in emission
    order, and the reporter-threaded wrappers (`add`, `addRequired`,
    `runDoc`, `runDocs`) recover the stateful interface of main.go.
  - Go `regexp` patterns are embedded as executable Bool matchers over the
    character list of the string (the three patterns used are anchored and
    simple; `.` in Go regexp matches any character except the newline).
  - `strconv.Atoi` (= ParseInt base 10, bit size of int = 64) becomes
    `atoi : String -> Option Int`: an optional single sign, one or more
    ASCII digits, and the value must fit in a signed 64-bit integer;
    `strings.TrimSpace` becomes `trimSpace`, trimming the rune set Go
    treats as white space (unicode.IsSpace).
-/

namespace YamlValid

/-- Node kinds of the yaml.v3 tree; the validator only distinguishes
scalar, mapping and sequence (document and alias only occur at the root
or never). -/
inductive NodeKind where
  | scalar
  | mapping
  | sequence
  | document
  | aliasNode
deriving DecidableEq, Repr

/-- Embedding of `yaml.Node`: kind, tag (e.g. "!!str", "!!int"), literal
value of a scalar, 1-based source line, and children. For a mapping the
children alternate key, value, key, value as in yaml.v3. -/
structure Node where
  kind : NodeKind
  tag : String
  value : String
  line : Nat
  content : List Node

/-- Embedding of `errOut` (main.go lines 15-20): one diagnostic.
`line = 0` means the no-line form used for "<field> is required". -/
structure ErrOut where
  file : String
  line : Nat
  msg : String
deriving DecidableEq, Repr

/-- Embedding of `reporter` (main.go lines 22-25). -/
structure Reporter where
  file : String
  errs : List ErrOut
deriving DecidableEq, Repr

/-- `(*reporter).add` (main.go lines 27-29). -/
def Reporter.add (r : Reporter) (line : Nat) (msg : String) : Reporter :=
  { r with errs := r.errs ++ [{ file := r.file, line := line, msg := msg }] }

/-- `(*reporter).addRequired` (main.go lines 31-34): the no-line
"<field> is required" diagnostic. -/
def Reporter.addRequired (r : Reporter) (field : String) : Reporter :=
  { r with errs := r.errs ++ [{ file := r.file, line := 0, msg := field ++ " is required" }] }

/-- `(*reporter).hasErrors` (main.go line 36). -/
def Reporter.hasErrors (r : Reporter) : Bool :=
  r.errs.length > 0

/-- A single-quote character as a string (used by the Sprintf formats
that wrap the offending value in single quotes). -/
def sq : String :=
  (Char.ofNat 39).toString

/-- Wraps a value in single quotes, as `fmt.Sprintf("...%s'", v)` does in
the diagnostic messages. -/
def q (s : String) : String :=
  sq ++ s ++ sq

/-- The rune set Go `unicode.IsSpace` accepts (White_Space property):
used by `strings.TrimSpace`. -/
def goSpaceCodes : List Nat :=
  [9, 10, 11, 12, 13, 32, 0x85, 0xA0, 0x1680] ++
    (List.range 11).map (fun i => 0x2000 + i) ++
    [0x2028, 0x2029, 0x202F, 0x205F, 0x3000]

/-- Whether Go `unicode.IsSpace` holds for the character. -/
def goIsSpace (c : Char) : Bool :=
  goSpaceCodes.contains c.toNat

/-- Embedding of `strings.TrimSpace`: drop white space from both ends. -/
def trimSpace (s : String) : String :=
  ⟨(((s.data.dropWhile goIsSpace).reverse.dropWhile goIsSpace).reverse)⟩

/-- Numeric value of a list of ASCII digit characters, most significant
first (the accumulation ParseInt performs in base 10). -/
def digitsVal (ds : List Char) : Nat :=
  ds.foldl (fun a c => a * 10 + (c.toNat - 48)) 0

/-- The signed value of a digit run under an optional leading minus. -/
def signedVal (neg : Bool) (ds : List Char) : Int :=
  if neg then -(digitsVal ds : Int) else (digitsVal ds : Int)

/-- The digits-and-range phase of `strconv.ParseInt` in base 10 with the
64-bit `int` of the target platform: after the sign has been consumed the
remaining characters must be one or more ASCII digits and the signed
value must fit the signed 64-bit range; `none` is the error case. -/
def atoiDigits (neg : Bool) (ds : List Char) : Option Int :=
  if ds ≠ [] ∧ ds.all Char.isDigit then
    if -(2 ^ 63 : Int) ≤ signedVal neg ds ∧ signedVal neg ds ≤ 2 ^ 63 - 1 then
      some (signedVal neg ds)
    else none
  else none

/-- Embedding of `strconv.Atoi` = `strconv.ParseInt(s, 10, 0)`: an
optional single leading + or - sign, then `atoiDigits`. -/
def atoi (s : String) : Option Int :=
  if s.data.head? = some '-' then atoiDigits true s.data.tail
  else if s.data.head? = some '+' then atoiDigits false s.data.tail
  else atoiDigits false s.data

/-- The optionally-signed base-10 literal predicate: the character list is
an optional single + or - sign followed by one or more ASCII digits, and
the signed value fits in the signed 64-bit range. This is the acceptance
condition of strconv.Atoi stated as a structural property; it is the
target of the amended integer-coercion claim. -/
def SignedDigitLit (s : String) : Prop :=
  ∃ (negSign : Bool) (sign digits : List Char),
    ((sign = [] ∧ negSign = false) ∨ (sign = ['+'] ∧ negSign = false) ∨
      (sign = ['-'] ∧ negSign = true)) ∧
    s.data = sign ++ digits ∧ digits ≠ [] ∧ digits.all Char.isDigit = true ∧
    -(2 ^ 63 : Int) ≤ signedVal negSign digits ∧ signedVal negSign digits ≤ 2 ^ 63 - 1

/-- Matcher of the Go regexp `reSnake` (main.go line 50): a lowercase
letter followed by lowercase letters, digits or underscores. -/
def reSnake (s : String) : Bool :=
  match s.data with
  | [] => false
  | c :: rest =>
    ('a' ≤ c ∧ c ≤ 'z') ∧
      rest.all (fun d => ('a' ≤ d ∧ d ≤ 'z') ∨ ('0' ≤ d ∧ d ≤ '9') ∨ d = '_')

/-- Matcher of the Go regexp `reMem` (main.go line 51): one or more
digits followed by Gi, Mi or Ki. -/
def reMem (s : String) : Bool :=
  match s.data.reverse with
  | 'i' :: u :: revDigits =>
    (u = 'G' ∨ u = 'M' ∨ u = 'K') ∧ revDigits ≠ [] ∧ revDigits.all Char.isDigit
  | _ => false

/-- Embedding of `strings.HasPrefix` over the character lists. -/
def goHasPrefix (s pre : String) : Bool :=
  pre.data.isPrefixOf s.data

/-- Matcher of the Go regexp `reImage` (main.go line 52): the literal
host and slash, then one or more non-newline characters, a colon, and one
or more non-newline characters. A split at some inner colon with
newline-free sides exists exactly when the remainder is newline-free and
has a colon that is neither its first nor its last character. -/
def reImage (s : String) : Bool :=
  let pre := "registry.bigbrother.io/"
  goHasPrefix s pre ∧
    (let rest := s.data.drop pre.data.length
     rest.all (fun c => c ≠ '\n') ∧ ((rest.drop 1).dropLast).contains ':')

/-- The `validOS` set (main.go line 53). -/
def validOS (s : String) : Bool :=
  s = "linux" ∨ s = "windows"

/-- The `validProtocol` set (main.go line 54). -/
def validProtocol (s : String) : Bool :=
  s = "TCP" ∨ s = "UDP"

/-- Scan of a flattened mapping content for the first pair whose key is a
scalar equal to `key` (the loop of `getField`, main.go lines 428-434). -/
def findPair (key : String) : List Node → Option Node
  | k :: v :: rest =>
    if k.kind = NodeKind.scalar ∧ k.value = key then some v else findPair key rest
  | _ => none

/-- Embedding of `getField` (main.go lines 424-436): first-match lookup
of a field in a mapping node; `none` for non-mappings or a missing key. -/
def getField (obj : Node) (key : String) : Option Node :=
  if obj.kind = NodeKind.mapping then findPair key obj.content else none

/-- Embedding of `asInt` (main.go lines 438-461): integer coercion of a
scalar node. Returns the parse result together with the line the Go
function always reports (`n.Line`). -/
def asInt (n : Node) : Option Int × Nat :=
  match n.kind with
  | NodeKind.scalar =>
    if n.tag = "!!int" then (atoi n.value, n.line)
    else if n.tag = "!!str" then (atoi (trimSpace n.value), n.line)
    else (none, n.line)
  | _ => (none, n.line)

/-- The no-line required-field diagnostic `rep.addRequired(field)`
produces, as a list element. -/
def reqDiag (f field : String) : ErrOut :=
  { file := f, line := 0, msg := field ++ " is required" }

/-- A positioned diagnostic `rep.add(line, msg)` produces, as a list
element. -/
def lineDiag (f : String) (line : Nat) (msg : String) : ErrOut :=
  { file := f, line := line, msg := msg }

/-- The labels loop of `validateObjectMeta` (main.go lines 177-186):
for each key/value pair the value is checked first, then the key, exactly
in the order of the Go loop body. -/
def labelsPairs (f : String) : List Node → List ErrOut
  | k :: v :: rest =>
    (if v.kind = NodeKind.scalar ∧ v.tag = "!!str" then []
     else [lineDiag f v.line "labels value must be string"]) ++
    (if k.kind = NodeKind.scalar ∧ k.tag = "!!str" then []
     else [lineDiag f k.line "labels key must be string"]) ++
    labelsPairs f rest
  | _ => []

/-- The name block of `validateObjectMeta` (main.go lines 155-164):
required string scalar; a blank-after-trim value is reported as invalid
format at the node line, and the message hardcodes empty quotes (line
162 uses a constant string, not Sprintf of the raw value). -/
def metaNameDiags (f : String) (n : Node) : List ErrOut :=
  match getField n "name" with
  | none => [reqDiag f "metadata.name"]
  | some name =>
    if name.kind = NodeKind.scalar ∧ name.tag = "!!str" then
      if trimSpace name.value = "" then
        [lineDiag f name.line ("name has invalid format " ++ q "")]
      else []
    else [lineDiag f name.line "name must be string"]

/-- The namespace block of `validateObjectMeta` (main.go lines 166-170). -/
def metaNamespaceDiags (f : String) (n : Node) : List ErrOut :=
  match getField n "namespace" with
  | none => []
  | some ns =>
    if ns.kind = NodeKind.scalar ∧ ns.tag = "!!str" then []
    else [lineDiag f ns.line "namespace must be string"]

/-- The labels block of `validateObjectMeta` (main.go lines 172-188). -/
def metaLabelsDiags (f : String) (n : Node) : List ErrOut :=
  match getField n "labels" with
  | none => []
  | some labels =>
    if labels.kind = NodeKind.mapping then labelsPairs f labels.content
    else [lineDiag f labels.line "labels must be object"]

/-- Embedding of `validateObjectMeta` (main.go lines 154-189) as the list
of diagnostics it appends: name (required, string, non-blank), namespace
(optional string), labels (optional mapping of string to string), in
source order. -/
def validateObjectMetaDiags (f : String) (n : Node) : List ErrOut :=
  metaNameDiags f n ++ metaNamespaceDiags f n ++ metaLabelsDiags f n

/-- The protocol block of `validateContainerPort` (main.go lines
318-324), named separately so theorems can split the containerPort check
from the protocol check. -/
def protoDiags (f : String) (n : Node) : List ErrOut :=
  match getField n "protocol" with
  | none => []
  | some pr =>
    if pr.kind = NodeKind.scalar ∧ pr.tag = "!!str" then
      if validProtocol pr.value then []
      else [lineDiag f pr.line ("protocol has unsupported value " ++ q pr.value)]
    else [lineDiag f pr.line "protocol must be string"]

/-- Embedding of `validateContainerPort` (main.go lines 306-325):
containerPort (required, int in 1..65535), protocol (optional, TCP or
UDP). -/
def validateContainerPortDiags (f : String) (n : Node) : List ErrOut :=
  (match getField n "containerPort" with
   | none => [reqDiag f "ports.containerPort"]
   | some cp =>
     match asInt cp with
     | (none, line) => [lineDiag f line "containerPort must be int"]
     | (some ival, line) =>
       if ival ≤ 0 ∨ 65536 ≤ ival then
         [lineDiag f line "containerPort value out of range"]
       else []) ++
  protoDiags f n

/-- Embedding of `validateProbe` (main.go lines 328-365), parameterized by
the field-path `pfx` used in diagnostic messages: the probe node must be a
mapping with a required mapping field httpGet carrying path (string
starting with /) and port (int in 1..65535). -/
def validateProbeDiags (f pfx : String) (n : Node) : List ErrOut :=
  if n.kind = NodeKind.mapping then
    match getField n "httpGet" with
    | none => [reqDiag f (pfx ++ ".httpGet")]
    | some hg =>
      if hg.kind = NodeKind.mapping then
        (match getField hg "path" with
         | none => [reqDiag f (pfx ++ ".httpGet.path")]
         | some path =>
           if path.kind = NodeKind.scalar ∧ path.tag = "!!str" then
             if goHasPrefix path.value "/" then []
             else [lineDiag f path.line ("path has invalid format " ++ q path.value)]
           else [lineDiag f path.line "path must be string"]) ++
        (match getField hg "port" with
         | none => [reqDiag f (pfx ++ ".httpGet.port")]
         | some port =>
           match asInt port with
           | (none, line) => [lineDiag f line "port must be int"]
           | (some ival, line) =>
             if ival ≤ 0 ∨ 65536 ≤ ival then
               [lineDiag f line "port value out of range"]
             else [])
      else [lineDiag f hg.line "httpGet must be object"]
  else [lineDiag f n.line (pfx ++ " must be object")]

/-- The key/value loop of `validateResKV` (main.go lines 389-415):
cpu must coerce to a non-negative int, memory must be a string matching
`reMem`; note the memory format message hardcodes the prefix
resources.limits.memory in the source (line 410), whatever `pfx` is. -/
def resKVPairs (f pfx : String) : List Node → List ErrOut
  | k :: v :: rest =>
    (if k.kind = NodeKind.scalar ∧ k.tag = "!!str" then
       if k.value = "cpu" then
         match asInt v with
         | (none, line) => [lineDiag f line "cpu must be int"]
         | (some ival, line) =>
           if ival < 0 then [lineDiag f line "cpu value out of range"] else []
       else if k.value = "memory" then
         if v.kind = NodeKind.scalar ∧ v.tag = "!!str" then
           if reMem v.value then []
           else
             [lineDiag f v.line
               ("resources.limits.memory has invalid format " ++ q v.value)]
         else [lineDiag f v.line "memory must be string"]
       else []
     else [lineDiag f k.line (pfx ++ " key must be string")]) ++
    resKVPairs f pfx rest
  | _ => []

/-- Embedding of `validateResKV` (main.go lines 382-420). -/
def validateResKVDiags (f pfx : String) (n : Node) : List ErrOut :=
  if n.kind = NodeKind.mapping then resKVPairs f pfx n.content
  else [lineDiag f n.line (pfx ++ " must be object")]

/-- Embedding of `validateResources` (main.go lines 368-380): a mapping
with optional limits and requests submappings. -/
def validateResourcesDiags (f : String) (n : Node) : List ErrOut :=
  if n.kind = NodeKind.mapping then
    (match getField n "limits" with
     | none => []
     | some lim => validateResKVDiags f "resources.limits" lim) ++
    (match getField n "requests" with
     | none => []
     | some req => validateResKVDiags f "resources.requests" req)
  else [lineDiag f n.line "resources must be object"]

/-- The ports loop of the container body (main.go lines 277-284):
non-mapping items are flagged and skipped, mapping items go to
`validateContainerPortDiags`. -/
def portsLoop (f : String) : List Node → List ErrOut
  | [] => []
  | pn :: rest =>
    (if pn.kind = NodeKind.mapping then validateContainerPortDiags f pn
     else [lineDiag f pn.line "ports item must be object"]) ++
    portsLoop f rest

/-- The name block of the container body (main.go lines 243-259): a
required string scalar, non-blank and snake_case, checked against and
registered in the seen-names set (the Go `seenNames` map, embedded as a
list whose membership is the map membership). Returns the appended
diagnostics together with the updated seen set. -/
def containerNameStep (f : String) (item : Node) (seen : List String) :
    List ErrOut × List String :=
  match getField item "name" with
  | none => ([reqDiag f "containers.name"], seen)
  | some nameNode =>
    if nameNode.kind = NodeKind.scalar ∧ nameNode.tag = "!!str" then
      if trimSpace nameNode.value = "" ∨ ¬ reSnake nameNode.value then
        ([lineDiag f nameNode.line ("name has invalid format " ++ q nameNode.value)],
          seen)
      else
        ((if seen.contains nameNode.value then
            [lineDiag f nameNode.line ("name has invalid format " ++ q "duplicate")]
          else []),
          nameNode.value :: seen)
    else ([lineDiag f nameNode.line "name must be string"], seen)

/-- The image block of the container body (main.go lines 262-270). -/
def containerImageDiags (f : String) (item : Node) : List ErrOut :=
  match getField item "image" with
  | none => [reqDiag f "containers.image"]
  | some img =>
    if img.kind = NodeKind.scalar ∧ img.tag = "!!str" then
      if reImage img.value then []
      else [lineDiag f img.line ("image has invalid format " ++ q img.value)]
    else [lineDiag f img.line "image must be string"]

/-- The ports block of the container body (main.go lines 273-285). -/
def containerPortsDiags (f : String) (item : Node) : List ErrOut :=
  match getField item "ports" with
  | none => []
  | some ports =>
    if ports.kind = NodeKind.sequence then portsLoop f ports.content
    else [lineDiag f ports.line "ports must be array"]

/-- The probe blocks of the container body (main.go lines 288-294). -/
def containerProbesDiags (f : String) (item : Node) : List ErrOut :=
  (match getField item "readinessProbe" with
   | none => []
   | some rp => validateProbeDiags f "readinessProbe" rp) ++
  (match getField item "livenessProbe" with
   | none => []
   | some lp => validateProbeDiags f "livenessProbe" lp)

/-- The resources block of the container body (main.go lines 297-301). -/
def containerResourcesDiags (f : String) (item : Node) : List ErrOut :=
  match getField item "resources" with
  | none => [reqDiag f "containers.resources"]
  | some res => validateResourcesDiags f res

/-- The per-item body of the containers loop of `validatePodSpec`
(main.go lines 241-301), for a mapping item: the five field blocks in
source order; only the name block touches the seen-names set. -/
def validateContainerItemDiags (f : String) (item : Node) (seen : List String) :
    List ErrOut × List String :=
  ((containerNameStep f item seen).1 ++ containerImageDiags f item ++
    containerPortsDiags f item ++ containerProbesDiags f item ++
    containerResourcesDiags f item,
   (containerNameStep f item seen).2)

/-- The containers loop of `validatePodSpec` (main.go lines 236-302):
non-mapping items are flagged and skipped (the seen set is unchanged),
mapping items run the container body, threading the seen set. -/
def containersLoop (f : String) : List Node → List String → List ErrOut
  | [], _ => []
  | item :: rest, seen =>
    if item.kind = NodeKind.mapping then
      let step := validateContainerItemDiags f item seen
      step.1 ++ containersLoop f rest step.2
    else
      lineDiag f item.line "container must be object" :: containersLoop f rest seen

/-- The os block of `validatePodSpec` (main.go lines 193-218) as a
function of the field lookup result, named so theorems can refer to the
diagnostics the PodSpec validator emits before reaching containers. -/
def podSpecOsDiags (f : String) : Option Node → List ErrOut
  | none => []
  | some osNode =>
    match osNode.kind with
    | NodeKind.scalar =>
      if osNode.tag = "!!str" then
        if validOS osNode.value then []
        else [lineDiag f osNode.line ("os has unsupported value " ++ q osNode.value)]
      else [lineDiag f osNode.line "os must be string"]
    | NodeKind.mapping =>
      match getField osNode "name" with
      | none => [reqDiag f "spec.os.name"]
      | some nameNode =>
        if nameNode.kind = NodeKind.scalar ∧ nameNode.tag = "!!str" then
          if validOS nameNode.value then []
          else
            [lineDiag f nameNode.line ("os has unsupported value " ++ q nameNode.value)]
        else [lineDiag f nameNode.line "os.name must be string"]
    | _ => [lineDiag f osNode.line "os must be string or object"]

/-- The containers block of `validatePodSpec` (main.go lines 220-302) as
a function of the field lookup result: required sequence, empty is out of
range, items iterated with a fresh seen-names set. -/
def podSpecContainersDiags (f : String) : Option Node → List ErrOut
  | none => [reqDiag f "spec.containers"]
  | some containers =>
    if containers.kind = NodeKind.sequence then
      (if containers.content.length = 0 then
         [lineDiag f containers.line "containers value out of range"]
       else []) ++
      containersLoop f containers.content []
    else [lineDiag f containers.line "containers must be array"]

/-- Embedding of `validatePodSpec` (main.go lines 192-303): the optional
two-shape os field, then the required containers sequence, in source
order. -/
def validatePodSpecDiags (f : String) (n : Node) : List ErrOut :=
  podSpecOsDiags f (getField n "os") ++ podSpecContainersDiags f (getField n "containers")

/-- Embedding of `validatePod` (main.go lines 106-151): the four
independent top-level field checks, in source order. -/
def validatePodDiags (f : String) (doc : Node) : List ErrOut :=
  (match getField doc "apiVersion" with
   | none => [reqDiag f "apiVersion"]
   | some n =>
     if n.kind = NodeKind.scalar ∧ n.tag = "!!str" then
       if n.value = "v1" then []
       else [lineDiag f n.line ("apiVersion has unsupported value " ++ q n.value)]
     else [lineDiag f n.line "apiVersion must be string"]) ++
  (match getField doc "kind" with
   | none => [reqDiag f "kind"]
   | some n =>
     if n.kind = NodeKind.scalar ∧ n.tag = "!!str" then
       if n.value = "Pod" then []
       else [lineDiag f n.line ("kind has unsupported value " ++ q n.value)]
     else [lineDiag f n.line "kind must be string"]) ++
  (match getField doc "metadata" with
   | none => [reqDiag f "metadata"]
   | some n =>
     if n.kind = NodeKind.mapping then validateObjectMetaDiags f n
     else [lineDiag f n.line "metadata must be object"]) ++
  (match getField doc "spec" with
   | none => [reqDiag f "spec"]
   | some n =>
     if n.kind = NodeKind.mapping then validatePodSpecDiags f n
     else [lineDiag f n.line "spec must be object"])

/-- The per-document step of the main loop (main.go lines 91-97): a
non-mapping document is flagged at its line, a mapping document runs the
Pod validator, appending into the shared reporter. -/
def runDoc (r : Reporter) (doc : Node) : Reporter :=
  if doc.kind = NodeKind.mapping then
    { r with errs := r.errs ++ validatePodDiags r.file doc }
  else r.add doc.line "root must be object"

/-- The whole main loop over the top-level documents. -/
def runDocs (r : Reporter) (docs : List Node) : Reporter :=
  docs.foldl runDoc r

/-- The apiVersion block of `validatePod` (main.go lines 108-117) as a
function of the field lookup result alone. -/
def podSegApiVersion (f : String) : Option Node → List ErrOut
  | none => [reqDiag f "apiVersion"]
  | some n =>
    if n.kind = NodeKind.scalar ∧ n.tag = "!!str" then
      if n.value = "v1" then []
      else [lineDiag f n.line ("apiVersion has unsupported value " ++ q n.value)]
    else [lineDiag f n.line "apiVersion must be string"]

/-- The kind block of `validatePod` (main.go lines 119-128) as a function
of the field lookup result alone. -/
def podSegKind (f : String) : Option Node → List ErrOut
  | none => [reqDiag f "kind"]
  | some n =>
    if n.kind = NodeKind.scalar ∧ n.tag = "!!str" then
      if n.value = "Pod" then []
      else [lineDiag f n.line ("kind has unsupported value " ++ q n.value)]
    else [lineDiag f n.line "kind must be string"]

/-- The metadata block of `validatePod` (main.go lines 130-139) as a
function of the field lookup result alone. -/
def podSegMetadata (f : String) : Option Node → List ErrOut
  | none => [reqDiag f "metadata"]
  | some n =>
    if n.kind = NodeKind.mapping then validateObjectMetaDiags f n
    else [lineDiag f n.line "metadata must be object"]

/-- The spec block of `validatePod` (main.go lines 141-150) as a function
of the field lookup result alone. -/
def podSegSpec (f : String) : Option Node → List ErrOut
  | none => [reqDiag f "spec"]
  | some n =>
    if n.kind = NodeKind.mapping then validatePodSpecDiags f n
    else [lineDiag f n.line "spec must be object"]

/-- The message of the duplicate-container-name diagnostic
(main.go line 254). -/
def dupMsg : String :=
  "name has invalid format " ++ q "duplicate"

/-- How many diagnostics of a list carry the duplicate-name message. -/
def countDup (l : List ErrOut) : Nat :=
  (l.filter (fun d => d.msg = dupMsg)).length

/-- Concrete string scalar node (test input builder). -/
def exStr (v : String) (l : Nat) : Node :=
  ⟨NodeKind.scalar, "!!str", v, l, []⟩

/-- Concrete integer scalar node (test input builder). -/
def exInt (v : String) (l : Nat) : Node :=
  ⟨NodeKind.scalar, "!!int", v, l, []⟩

/-- Concrete mapping node (test input builder); children alternate key,
value as in yaml.v3. -/
def exMap (l : Nat) (cs : List Node) : Node :=
  ⟨NodeKind.mapping, "!!map", "", l, cs⟩

/-- Concrete sequence node (test input builder). -/
def exSeq (l : Nat) (cs : List Node) : Node :=
  ⟨NodeKind.sequence, "!!seq", "", l, cs⟩

/-- A container item with a valid name, a valid image and empty
resources, as in the round-trip example of the spec. -/
def exGoodContainer : Node :=
  exMap 6 [exStr "name" 6, exStr "web" 6,
           exStr "image" 7, exStr "registry.bigbrother.io/app:1.0" 7,
           exStr "resources" 8, exMap 8 []]

/-- A document that is fully valid except that metadata.name is the empty
string (line 4) and the single container's name is blank (line 6): the
inputs of the empty-name claim. -/
def exDocEmptyNames : Node :=
  exMap 1 [exStr "apiVersion" 1, exStr "v1" 1,
           exStr "kind" 2, exStr "Pod" 2,
           exStr "metadata" 3, exMap 4 [exStr "name" 4, exStr "" 4],
           exStr "spec" 5,
           exMap 5 [exStr "containers" 5,
                    exSeq 6 [exMap 6 [exStr "name" 6, exStr "" 6,
                                      exStr "image" 7,
                                      exStr "registry.bigbrother.io/app:1.0" 7,
                                      exStr "resources" 8, exMap 8 []]]]]

mutual

/-- Size of a document tree: one per node. The traversal bounds that
settle the termination claim are stated against this measure. -/
def Node.weight : Node → Nat
  | Node.mk _ _ _ _ cs => 1 + weightList cs

/-- Total size of a list of trees. -/
def weightList : List Node → Nat
  | [] => 0
  | n :: rest => Node.weight n + weightList rest

end

/-! ## Helper lemmas -/

theorem data_append (a b : String) : (a ++ b).data = a.data ++ b.data := by
  cases a; cases b; rfl

theorem str_ext (a b : String) (h : a.data = b.data) : a = b := by
  cases a; cases b; exact congrArg String.mk h

theorem head?_append_left (a v : String) (c : Char) (h : a.data.head? = some c) :
    (a ++ v).data.head? = some c := by
  rw [data_append]
  cases hl : a.data with
  | nil => rw [hl] at h; simp at h
  | cons x xs =>
    rw [hl] at h
    simp only [List.head?_cons, Option.some.injEq] at h
    simp [h]

theorem ne_of_head (a b : String) (c1 c2 : Char) (h1 : a.data.head? = some c1)
    (h2 : b.data.head? = some c2) (hne : c1 ≠ c2) : a ≠ b := by
  intro h
  rw [h, h2] at h1
  exact hne (Option.some.inj h1).symm

theorem q_inj (a b : String) (h : q a = q b) : a = b := by
  have hd := congrArg String.data h
  simp only [q, data_append] at hd
  have h1 := List.append_cancel_right hd
  have h2 := List.append_cancel_left h1
  exact str_ext a b h2

theorem runDoc_file (r : Reporter) (d : Node) : (runDoc r d).file = r.file := by
  unfold runDoc Reporter.add
  split <;> rfl

theorem runDoc_errs (r : Reporter) (d : Node) : ∃ t, (runDoc r d).errs = r.errs ++ t := by
  unfold runDoc Reporter.add
  split
  · exact ⟨_, rfl⟩
  · exact ⟨_, rfl⟩

theorem runDocs_errs (docs : List Node) (r : Reporter) :
    ∃ t, (runDocs r docs).errs = r.errs ++ t := by
  induction docs generalizing r with
  | nil => exact ⟨[], by simp [runDocs]⟩
  | cons d rest ih =>
    obtain ⟨t1, h1⟩ := runDoc_errs r d
    obtain ⟨t2, h2⟩ := ih (runDoc r d)
    refine ⟨t1 ++ t2, ?_⟩
    show (runDocs (runDoc r d) rest).errs = _
    rw [h2, h1, List.append_assoc]

/-! ## Claim theorems -/

/-- C10: the Reporter is append-only: `add` and `addRequired` each append
exactly one diagnostic at the end, leaving the previously accumulated
diagnostics and their order unchanged; over any run of the main loop the
old diagnostics stay a prefix, so `hasErrors` is monotone: once true it
stays true for the rest of the run. -/
theorem reporter_append_only :
    ∀ (r : Reporter) (line : Nat) (msg field : String) (docs : List Node),
      (r.add line msg).errs = r.errs ++ [⟨r.file, line, msg⟩] ∧
      (r.addRequired field).errs = r.errs ++ [⟨r.file, 0, field ++ " is required"⟩] ∧
      (∃ t, (runDocs r docs).errs = r.errs ++ t) ∧
      (r.hasErrors = true → (runDocs r docs).hasErrors = true) := by
  intro r line msg field docs
  refine ⟨rfl, rfl, runDocs_errs docs r, ?_⟩
  intro h
  obtain ⟨t, ht⟩ := runDocs_errs docs r
  simp only [Reporter.hasErrors, gt_iff_lt, decide_eq_true_eq] at h ⊢
  rw [ht]
  simp only [List.length_append]
  omega

/-- C10 witness: a reporter that already holds one diagnostic still
reports errors after validating a further (invalid) document, and the
fresh appends behave as stated. -/
theorem reporter_append_only_witness :
    (Reporter.add ⟨"pod.yaml", []⟩ 2 "x").errs = [] ++ [⟨"pod.yaml", 2, "x"⟩] ∧
    (Reporter.addRequired ⟨"pod.yaml", []⟩ "spec").errs =
      [] ++ [⟨"pod.yaml", 0, "spec" ++ " is required"⟩] ∧
    (∃ t, (runDocs ⟨"pod.yaml", [⟨"pod.yaml", 2, "x"⟩]⟩ [exStr "oops" 1]).errs =
      [⟨"pod.yaml", 2, "x"⟩] ++ t) ∧
    (runDocs ⟨"pod.yaml", [⟨"pod.yaml", 2, "x"⟩]⟩ [exStr "oops" 1]).hasErrors = true := by
  have h := reporter_append_only ⟨"pod.yaml", [⟨"pod.yaml", 2, "x"⟩]⟩ 2 "x" "spec" [exStr "oops" 1]
  have h0 := reporter_append_only ⟨"pod.yaml", []⟩ 2 "x" "spec" [exStr "oops" 1]
  exact ⟨h0.1, h0.2.1, h.2.2.1, h.2.2.2 (by decide)⟩

/-- C7: for a probe node that is a Mapping, a missing httpGet field
yields exactly the no-line required diagnostic and nothing else (no path
or port checks), and an httpGet field of the wrong kind yields exactly
the positioned must-be-object diagnostic and nothing else. -/
theorem probe_dead_end :
    ∀ (f pfx : String) (n : Node), n.kind = NodeKind.mapping →
      (getField n "httpGet" = none →
        validateProbeDiags f pfx n = [reqDiag f (pfx ++ ".httpGet")]) ∧
      (∀ hg : Node, getField n "httpGet" = some hg → hg.kind ≠ NodeKind.mapping →
        validateProbeDiags f pfx n = [lineDiag f hg.line "httpGet must be object"]) := by
  intro f pfx n hk
  constructor
  · intro hget
    simp [validateProbeDiags, hk, hget]
  · intro hg hget hkind
    simp [validateProbeDiags, hk, hget, hkind]

/-- C7 witness: a mapping probe without httpGet yields only the required
diagnostic; one whose httpGet is a scalar yields only the must-be-object
diagnostic at its line. -/
theorem probe_dead_end_witness :
    validateProbeDiags "pod.yaml" "readinessProbe" (exMap 2 []) =
      [reqDiag "pod.yaml" ("readinessProbe" ++ ".httpGet")] ∧
    validateProbeDiags "pod.yaml" "livenessProbe"
        (exMap 2 [exStr "httpGet" 3, exStr "x" 3]) =
      [lineDiag "pod.yaml" 3 "httpGet must be object"] := by
  constructor
  · exact (probe_dead_end "pod.yaml" "readinessProbe" (exMap 2 []) rfl).1 rfl
  · exact (probe_dead_end "pod.yaml" "livenessProbe"
      (exMap 2 [exStr "httpGet" 3, exStr "x" 3]) rfl).2 (exStr "x" 3) rfl (by decide)

/-- C5: a present containers field that is a Sequence with zero items
makes the PodSpec validator append the positioned out-of-range diagnostic
at the sequence node's line (as the last diagnostic of the spec check),
and this diagnostic differs from the no-line required diagnostic that an
absent containers field appends. -/
theorem empty_containers_out_of_range :
    ∀ (f : String) (n c : Node),
      getField n "containers" = some c → c.kind = NodeKind.sequence →
      c.content = [] → 0 < c.line →
      (∃ pre, validatePodSpecDiags f n =
        pre ++ [lineDiag f c.line "containers value out of range"]) ∧
      lineDiag f c.line "containers value out of range" ≠ reqDiag f "spec.containers" ∧
      (∀ n2 : Node, getField n2 "containers" = none →
        ∃ pre2, validatePodSpecDiags f n2 = pre2 ++ [reqDiag f "spec.containers"]) := by
  intro f n c hget hkind hcontent hline
  refine ⟨?_, ?_, ?_⟩
  · refine ⟨podSpecOsDiags f (getField n "os"), ?_⟩
    simp [validatePodSpecDiags, podSpecContainersDiags, hget, hkind, hcontent,
      containersLoop]
  · intro h
    have hl := congrArg ErrOut.line h
    simp [lineDiag, reqDiag] at hl
    omega
  · intro n2 hget2
    refine ⟨podSpecOsDiags f (getField n2 "os"), ?_⟩
    simp [validatePodSpecDiags, podSpecContainersDiags, hget2]

/-- C5 witness: a spec whose containers field is an empty sequence on
line 6 gets the out-of-range diagnostic there; a spec without the field
gets the no-line required diagnostic; the two differ. -/
theorem empty_containers_out_of_range_witness :
    (∃ pre, validatePodSpecDiags "pod.yaml" (exMap 5 [exStr "containers" 5, exSeq 6 []]) =
      pre ++ [lineDiag "pod.yaml" 6 "containers value out of range"]) ∧
    lineDiag "pod.yaml" 6 "containers value out of range" ≠ reqDiag "pod.yaml" "spec.containers" ∧
    (∀ n2 : Node, getField n2 "containers" = none →
      ∃ pre2, validatePodSpecDiags "pod.yaml" n2 = pre2 ++ [reqDiag "pod.yaml" "spec.containers"]) := by
  have h := empty_containers_out_of_range "pod.yaml"
    (exMap 5 [exStr "containers" 5, exSeq 6 []]) (exSeq 6 []) rfl rfl rfl (by decide)
  exact h

/-- C6: the top-level Pod validator checks apiVersion, kind, metadata and
spec independently: its diagnostics are the concatenation of four
segments, each a function of nothing but that field's lookup result, so a
failure in one field cannot suppress the checks of the others. -/
theorem pod_fields_independent :
    ∀ (f : String) (doc : Node),
      validatePodDiags f doc =
        podSegApiVersion f (getField doc "apiVersion") ++
        podSegKind f (getField doc "kind") ++
        podSegMetadata f (getField doc "metadata") ++
        podSegSpec f (getField doc "spec") := by
  intro f doc
  cases h1 : getField doc "apiVersion" <;> cases h2 : getField doc "kind" <;>
    cases h3 : getField doc "metadata" <;> cases h4 : getField doc "spec" <;>
    simp [validatePodDiags, podSegApiVersion, podSegKind, podSegMetadata, podSegSpec,
      h1, h2, h3, h4]

/-- C3: for a ports item with a containerPort field, coercion failure
yields the must-be-int diagnostic, an integer outside 1..65535 yields the
out-of-range diagnostic at the coercion's line, and an integer inside the
range yields no diagnostic for the field (only the independent protocol
block remains), whose diagnostics never carry either containerPort
message. -/
theorem containerPort_range :
    ∀ (f : String) (n cp : Node), getField n "containerPort" = some cp →
      ((asInt cp).1 = none →
        validateContainerPortDiags f n =
          lineDiag f (asInt cp).2 "containerPort must be int" :: protoDiags f n) ∧
      (∀ i : Int, (asInt cp).1 = some i →
        ((i < 1 ∨ 65535 < i) →
          validateContainerPortDiags f n =
            lineDiag f (asInt cp).2 "containerPort value out of range" :: protoDiags f n) ∧
        (1 ≤ i → i ≤ 65535 → validateContainerPortDiags f n = protoDiags f n)) ∧
      (∀ d ∈ protoDiags f n, d.msg ≠ "containerPort value out of range" ∧
        d.msg ≠ "containerPort must be int") := by
  intro f n cp hget
  rcases hA : asInt cp with ⟨res, line⟩
  refine ⟨?_, ?_, ?_⟩
  · intro hres
    simp only [] at hres
    subst hres
    simp [validateContainerPortDiags, hget, hA, protoDiags]
  · intro i hres
    simp only [] at hres
    subst hres
    constructor
    · intro hout
      have hcond : i ≤ 0 ∨ 65536 ≤ i := by omega
      simp [validateContainerPortDiags, hget, hA, protoDiags, hcond]
    · intro hlo hhi
      have hcond : ¬(i ≤ 0 ∨ 65536 ≤ i) := by omega
      simp [validateContainerPortDiags, hget, hA, protoDiags, hcond]
  · intro d hd
    rcases hp : getField n "protocol" with _ | pr
    · simp [protoDiags, hp] at hd
    · simp only [protoDiags, hp] at hd
      by_cases hk : pr.kind = NodeKind.scalar ∧ pr.tag = "!!str"
      · rw [if_pos hk] at hd
        by_cases hv : validProtocol pr.value = true
        · rw [if_pos hv] at hd; simp at hd
        · rw [if_neg hv] at hd
          simp only [List.mem_singleton] at hd
          subst hd
          constructor
          · exact ne_of_head _ _ 'p' 'c'
              (head?_append_left "protocol has unsupported value " _ 'p' (by decide))
              (by decide) (by decide)
          · exact ne_of_head _ _ 'p' 'c'
              (head?_append_left "protocol has unsupported value " _ 'p' (by decide))
              (by decide) (by decide)
      · rw [if_neg hk] at hd
        simp only [List.mem_singleton] at hd
        subst hd
        refine ⟨?_, ?_⟩ <;> (simp only [lineDiag]; decide)

/-- C3 witness: containerPort 8080 produces no containerPort diagnostic
(the output is exactly the protocol block, here empty), and containerPort
0 produces the out-of-range diagnostic. -/
theorem containerPort_range_witness :
    validateContainerPortDiags "pod.yaml" (exMap 9 [exStr "containerPort" 9, exInt "8080" 9]) =
      protoDiags "pod.yaml" (exMap 9 [exStr "containerPort" 9, exInt "8080" 9]) ∧
    validateContainerPortDiags "pod.yaml" (exMap 9 [exStr "containerPort" 9, exInt "0" 9]) =
      lineDiag "pod.yaml" 9 "containerPort value out of range" ::
        protoDiags "pod.yaml" (exMap 9 [exStr "containerPort" 9, exInt "0" 9]) := by
  constructor
  · exact ((containerPort_range "pod.yaml" (exMap 9 [exStr "containerPort" 9, exInt "8080" 9])
      (exInt "8080" 9) rfl).2.1 8080 (by decide)).2 (by decide) (by decide)
  · exact ((containerPort_range "pod.yaml" (exMap 9 [exStr "containerPort" 9, exInt "0" 9])
      (exInt "0" 9) rfl).2.1 0 (by decide)).1 (by decide)

theorem atoiDigits_isSome_iff (neg : Bool) (ds : List Char) :
    (atoiDigits neg ds).isSome = true ↔
      (ds ≠ [] ∧ ds.all Char.isDigit = true ∧
        -(2 ^ 63 : Int) ≤ signedVal neg ds ∧ signedVal neg ds ≤ 2 ^ 63 - 1) := by
  unfold atoiDigits
  split_ifs with h1 h2
  · exact ⟨fun _ => ⟨h1.1, h1.2, h2.1, h2.2⟩, fun _ => rfl⟩
  · constructor
    · intro h; simp at h
    · intro h; exact absurd ⟨h.2.2.1, h.2.2.2⟩ h2
  · constructor
    · intro h; simp at h
    · intro h; exact absurd ⟨h.1, h.2.1⟩ h1

theorem atoi_isSome_iff (s : String) : (atoi s).isSome = true ↔ SignedDigitLit s := by
  unfold atoi
  rcases hs : s.data with _ | ⟨c, rest⟩
  · simp only [List.head?_nil, reduceCtorEq, if_false, List.tail_nil]
    rw [atoiDigits_isSome_iff]
    constructor
    · intro h; exact absurd rfl h.1
    · rintro ⟨neg, sign, digits, hsig, hdata, hne, -⟩
      rw [hs] at hdata
      rcases List.append_eq_nil.mp hdata.symm with ⟨-, h2⟩
      exact absurd h2 hne
  · simp only [List.head?_cons, Option.some.injEq, List.tail_cons]
    by_cases hc1 : c = '-'
    · subst hc1
      rw [if_pos rfl, atoiDigits_isSome_iff]
      constructor
      · rintro ⟨hne, hdig, hlo, hhi⟩
        exact ⟨true, ['-'], rest, Or.inr (Or.inr ⟨rfl, rfl⟩), by rw [hs]; rfl,
          hne, hdig, hlo, hhi⟩
      · rintro ⟨neg, sign, digits, hsig | hsig | hsig, hdata, hne, hdig, hlo, hhi⟩
        · obtain ⟨h1, h2⟩ := hsig
          subst h1; subst h2
          rw [hs] at hdata
          simp only [List.nil_append] at hdata
          rw [← hdata] at hdig
          simp only [List.all_cons, Bool.and_eq_true] at hdig
          exact absurd hdig.1 (by decide)
        · obtain ⟨h1, h2⟩ := hsig
          subst h1; subst h2
          rw [hs] at hdata
          injection hdata with hch
          exact absurd hch (by decide)
        · obtain ⟨h1, h2⟩ := hsig
          subst h1; subst h2
          rw [hs] at hdata
          injection hdata with hch0 hrest
          subst hrest
          exact ⟨hne, hdig, hlo, hhi⟩
    · by_cases hc2 : c = '+'
      · subst hc2
        rw [if_neg (by simp), if_pos rfl, atoiDigits_isSome_iff]
        constructor
        · rintro ⟨hne, hdig, hlo, hhi⟩
          exact ⟨false, ['+'], rest, Or.inr (Or.inl ⟨rfl, rfl⟩), by rw [hs]; rfl,
            hne, hdig, hlo, hhi⟩
        · rintro ⟨neg, sign, digits, hsig | hsig | hsig, hdata, hne, hdig, hlo, hhi⟩
          · obtain ⟨h1, h2⟩ := hsig
            subst h1; subst h2
            rw [hs] at hdata
            simp only [List.nil_append] at hdata
            rw [← hdata] at hdig
            simp only [List.all_cons, Bool.and_eq_true] at hdig
            exact absurd hdig.1 (by decide)
          · obtain ⟨h1, h2⟩ := hsig
            subst h1; subst h2
            rw [hs] at hdata
            injection hdata with hch0 hrest
            subst hrest
            exact ⟨hne, hdig, hlo, hhi⟩
          · obtain ⟨h1, h2⟩ := hsig
            subst h1; subst h2
            rw [hs] at hdata
            injection hdata with hch
            exact absurd hch (by decide)
      · rw [if_neg (by simpa using hc1), if_neg (by simpa using hc2),
          atoiDigits_isSome_iff]
        constructor
        · rintro ⟨hne, hdig, hlo, hhi⟩
          exact ⟨false, [], c :: rest, Or.inl ⟨rfl, rfl⟩, by rw [hs]; rfl,
            hne, hdig, hlo, hhi⟩
        · rintro ⟨neg, sign, digits, hsig | hsig | hsig, hdata, hne, hdig, hlo, hhi⟩
          · obtain ⟨h1, h2⟩ := hsig
            subst h1; subst h2
            rw [hs] at hdata
            simp only [List.nil_append] at hdata
            rw [← hdata] at hne hdig hlo hhi
            exact ⟨hne, hdig, hlo, hhi⟩
          · obtain ⟨h1, h2⟩ := hsig
            subst h1; subst h2
            rw [hs] at hdata
            injection hdata with hch
            exact absurd hch hc2
          · obtain ⟨h1, h2⟩ := hsig
            subst h1; subst h2
            rw [hs] at hdata
            injection hdata with hch
            exact absurd hch hc1

/-- C2 counterexample: the claim says a string-tagged scalar coerces
successfully exactly when its trimmed text consists only of digits; but
asInt accepts the signed text -5 (whose characters are not all digits)
and rejects the 20-digit text 99999999999999999999 (whose characters are
all digits, but whose value overflows the 64-bit int of strconv.Atoi). -/
theorem asInt_digits_only_counterexample :
    (asInt (exStr "-5" 7)).1 = some (-5) ∧
    (trimSpace (exStr "-5" 7).value).data.all Char.isDigit = false ∧
    (asInt (exStr "99999999999999999999" 8)).1 = none ∧
    (trimSpace (exStr "99999999999999999999" 8).value).data.all Char.isDigit = true := by
  refine ⟨by decide, by decide, by decide, by decide⟩

/-- C2 (amended): asInt always returns the node's line; it succeeds only
on Scalar nodes; on a native-integer tag it parses the raw text with
strconv.Atoi semantics; on a string tag it parses the trimmed text the
same way, succeeding exactly when that text is an optionally signed
nonempty run of digits whose value fits a signed 64-bit integer; any
other tag or kind fails. -/
theorem asInt_characterization :
    ∀ n : Node,
      (asInt n).2 = n.line ∧
      ((asInt n).1.isSome = true → n.kind = NodeKind.scalar) ∧
      (n.kind = NodeKind.scalar → n.tag = "!!int" → (asInt n).1 = atoi n.value) ∧
      (n.kind = NodeKind.scalar → n.tag = "!!str" →
        (asInt n).1 = atoi (trimSpace n.value) ∧
        ((asInt n).1.isSome = true ↔ SignedDigitLit (trimSpace n.value))) ∧
      (n.kind = NodeKind.scalar → n.tag ≠ "!!int" → n.tag ≠ "!!str" → (asInt n).1 = none) ∧
      (n.kind ≠ NodeKind.scalar → (asInt n).1 = none) := by
  intro n
  refine ⟨?_, ?_, ?_, ?_, ?_, ?_⟩
  · rcases hk : n.kind <;> simp [asInt, hk] <;> split_ifs <;> rfl
  · intro h
    rcases hk : n.kind
    case scalar => rfl
    all_goals simp [asInt, hk] at h
  · intro hk ht
    simp [asInt, hk, ht]
  · intro hk ht
    constructor
    · simp [asInt, hk, ht]
    · rw [show (asInt n).1 = atoi (trimSpace n.value) from by simp [asInt, hk, ht]]
      exact atoi_isSome_iff (trimSpace n.value)
  · intro hk ht1 ht2
    simp [asInt, hk, ht1, ht2]
  · intro hk
    rcases hkk : n.kind
    case scalar => exact absurd hkk hk
    all_goals simp [asInt, hkk]

/-- C2 witness: concrete instances of the characterization: the string
scalar " 42 " on line 3 coerces via the trimmed text, and satisfies the
signed-digit acceptance; the integer scalar 8080 coerces via Atoi on the
raw text. -/
theorem asInt_characterization_witness :
    (asInt (exStr " 42 " 3)).1 = atoi (trimSpace " 42 ") ∧
    ((asInt (exStr " 42 " 3)).1.isSome = true ↔ SignedDigitLit (trimSpace " 42 ")) ∧
    (asInt (exInt "8080" 5)).1 = atoi "8080" ∧
    (asInt (exStr " 42 " 3)).2 = 3 := by
  refine ⟨?_, ?_, ?_, ?_⟩
  · exact ((asInt_characterization (exStr " 42 " 3)).2.2.2.1 rfl rfl).1
  · exact ((asInt_characterization (exStr " 42 " 3)).2.2.2.1 rfl rfl).2
  · exact (asInt_characterization (exInt "8080" 5)).2.2.1 rfl rfl
  · exact (asInt_characterization (exStr " 42 " 3)).1

/-- C1 counterexample: a document that is valid except for an empty
metadata.name (line 4) and a blank container name (line 6). The claim
predicts a diagnostic with message exactly "name is required" at those
lines; the validator instead emits the invalid-format message (with the
offending value quoted) at both, and no diagnostic of the whole run
carries the message "name is required". -/
theorem name_empty_message_counterexample :
    validatePodDiags "pod.yaml" exDocEmptyNames =
      [lineDiag "pod.yaml" 4 ("name has invalid format " ++ q ""),
       lineDiag "pod.yaml" 6 ("name has invalid format " ++ q "")] ∧
    (∀ d ∈ validatePodDiags "pod.yaml" exDocEmptyNames, d.msg ≠ "name is required") ∧
    (getField (exMap 4 [exStr "name" 4, exStr "" 4]) "name" = some (exStr "" 4) ∧
      trimSpace "" = "" ∧ (exStr "" 4).tag = "!!str") := by
  refine ⟨by decide, by decide, rfl, rfl, rfl⟩

/-- C1 (amended): a name field that is a string scalar whose trimmed
value is empty is reported at the node's real (positive) source line
with an invalid-format message, not with the message "name is required"
and not with the no-line absent-field form; the metadata.name check
(main.go lines 161-162) hardcodes empty quotes in the message, while the
container name check (main.go lines 249-250) embeds the raw value. -/
theorem name_empty_invalid_format :
    (∀ (f : String) (meta w : Node),
      getField meta "name" = some w → w.kind = NodeKind.scalar → w.tag = "!!str" →
      trimSpace w.value = "" → 0 < w.line →
      ∃ rest, validateObjectMetaDiags f meta =
        lineDiag f w.line ("name has invalid format " ++ q "") :: rest ∧
        0 < (lineDiag f w.line ("name has invalid format " ++ q "")).line) ∧
    (∀ (f : String) (item w : Node) (seen : List String),
      getField item "name" = some w → w.kind = NodeKind.scalar → w.tag = "!!str" →
      trimSpace w.value = "" → 0 < w.line →
      ∃ rest, (validateContainerItemDiags f item seen).1 =
        lineDiag f w.line ("name has invalid format " ++ q w.value) :: rest ∧
        (validateContainerItemDiags f item seen).2 = seen) := by
  constructor
  · intro f meta w hget hk ht htrim hline
    refine ⟨?_, ?_, ?_⟩
    · exact metaNamespaceDiags f meta ++ metaLabelsDiags f meta
    · simp [validateObjectMetaDiags, metaNameDiags, hget, hk, ht, htrim]
    · exact hline
  · intro f item w seen hget hk ht htrim hline
    refine ⟨?_, ?_, ?_⟩
    · exact ((validateContainerItemDiags f item seen).1).tail
    · simp [validateContainerItemDiags, containerNameStep, hget, hk, ht, htrim]
    · simp [validateContainerItemDiags, containerNameStep, hget, hk, ht, htrim]

/-- C1 witness: the amended behavior at concrete inputs: a metadata
mapping whose name is three blanks on line 4 still gets the hardcoded
empty-quotes message, and a container item whose name is a single blank
on line 6 gets the message embedding that raw blank (the seen set stays
empty). -/
theorem name_empty_invalid_format_witness :
    (∃ rest,
      validateObjectMetaDiags "pod.yaml" (exMap 4 [exStr "name" 4, exStr "   " 4]) =
        lineDiag "pod.yaml" 4 ("name has invalid format " ++ q "") :: rest ∧
      0 < (lineDiag "pod.yaml" 4 ("name has invalid format " ++ q "")).line) ∧
    (∃ rest,
      (validateContainerItemDiags "pod.yaml" (exMap 6 [exStr "name" 6, exStr " " 6]) []).1 =
        lineDiag "pod.yaml" 6 ("name has invalid format " ++ q " ") :: rest ∧
      (validateContainerItemDiags "pod.yaml" (exMap 6 [exStr "name" 6, exStr " " 6]) []).2 = []) := by
  constructor
  · exact name_empty_invalid_format.1 "pod.yaml" (exMap 4 [exStr "name" 4, exStr "   " 4])
      (exStr "   " 4) rfl rfl rfl (by decide) (by decide)
  · exact name_empty_invalid_format.2 "pod.yaml" (exMap 6 [exStr "name" 6, exStr " " 6])
      (exStr " " 6) [] rfl rfl rfl (by decide) (by decide)

theorem dup_head : dupMsg.data.head? = some 'n' := by
  unfold dupMsg
  exact head?_append_left "name has invalid format " _ 'n' (by decide)

theorem msg_ne_dup (m : String) (c : Char) (h : m.data.head? = some c) (hc : c ≠ 'n') :
    m ≠ dupMsg := by
  intro he
  rw [he, dup_head] at h
  exact hc (Option.some.inj h).symm

theorem append_left_cancel' (a b c : String) (h : a ++ b = a ++ c) : b = c := by
  have hd := congrArg String.data h
  rw [data_append, data_append] at hd
  exact str_ext _ _ (List.append_cancel_left hd)

theorem countDup_append (a b : List ErrOut) :
    countDup (a ++ b) = countDup a + countDup b := by
  simp [countDup, List.filter_append]

theorem countDup_eq_zero (l : List ErrOut) (h : ∀ d ∈ l, d.msg ≠ dupMsg) :
    countDup l = 0 := by
  unfold countDup
  rw [List.length_eq_zero, List.filter_eq_nil_iff]
  intro a ha
  simpa using h a ha

theorem protoDiags_ne_dup (f : String) (n : Node) :
    ∀ d ∈ protoDiags f n, d.msg ≠ dupMsg := by
  intro d hd
  rcases hp : getField n "protocol" with _ | pr
  · simp [protoDiags, hp] at hd
  · simp only [protoDiags, hp] at hd
    by_cases hk : pr.kind = NodeKind.scalar ∧ pr.tag = "!!str"
    · rw [if_pos hk] at hd
      by_cases hv : validProtocol pr.value = true
      · rw [if_pos hv] at hd; simp at hd
      · rw [if_neg hv] at hd
        simp only [List.mem_singleton] at hd
        subst hd
        exact msg_ne_dup _ 'p'
          (head?_append_left "protocol has unsupported value " _ 'p' (by decide)) (by decide)
    · rw [if_neg hk] at hd
      simp only [List.mem_singleton] at hd
      subst hd
      simp only [lineDiag]
      decide

theorem containerPortDiags_ne_dup (f : String) (n : Node) :
    ∀ d ∈ validateContainerPortDiags f n, d.msg ≠ dupMsg := by
  intro d hd
  unfold validateContainerPortDiags at hd
  rw [List.mem_append] at hd
  rcases hd with hd | hd
  · rcases hcp : getField n "containerPort" with _ | cp
    · simp only [hcp, List.mem_singleton] at hd
      subst hd
      simp only [reqDiag]
      decide
    · simp only [hcp] at hd
      rcases hai : asInt cp with ⟨res, line⟩
      simp only [hai] at hd
      rcases res with _ | i
      · simp at hd
        subst hd
        simp only [lineDiag]
        decide
      · simp at hd
        obtain ⟨h1, hd⟩ := hd
        subst hd
        simp only [lineDiag]
        decide
  · exact protoDiags_ne_dup f n d hd

theorem portsLoop_ne_dup (f : String) :
    ∀ l : List Node, ∀ d ∈ portsLoop f l, d.msg ≠ dupMsg := by
  intro l
  induction l with
  | nil => intro d hd; simp [portsLoop] at hd
  | cons pn rest ih =>
    intro d hd
    unfold portsLoop at hd
    rw [List.mem_append] at hd
    rcases hd with hd | hd
    · split at hd
      · exact containerPortDiags_ne_dup f pn d hd
      · simp only [List.mem_singleton] at hd
        subst hd
        simp only [lineDiag]
        decide
    · exact ih d hd

theorem probe_ne_dup (f pfx : String) (n : Node) (c : Char)
    (hp : pfx.data.head? = some c) (hc : c ≠ 'n') :
    ∀ d ∈ validateProbeDiags f pfx n, d.msg ≠ dupMsg := by
  intro d hd
  unfold validateProbeDiags at hd
  split at hd
  · rcases hh : getField n "httpGet" with _ | hg
    · simp only [hh, List.mem_singleton] at hd
      subst hd
      simp only [reqDiag]
      exact msg_ne_dup _ c
        (head?_append_left _ _ c (head?_append_left pfx _ c hp)) hc
    · simp only [hh] at hd
      split at hd
      · rw [List.mem_append] at hd
        rcases hd with hd | hd
        · rcases hpath : getField hg "path" with _ | path
          · simp only [hpath, List.mem_singleton] at hd
            subst hd
            simp only [reqDiag]
            exact msg_ne_dup _ c
              (head?_append_left _ _ c (head?_append_left pfx _ c hp)) hc
          · simp only [hpath] at hd
            split at hd
            · split at hd
              · simp at hd
              · simp only [List.mem_singleton] at hd
                subst hd
                simp only [lineDiag]
                exact msg_ne_dup _ 'p'
                  (head?_append_left "path has invalid format " _ 'p' (by decide))
                  (by decide)
            · simp only [List.mem_singleton] at hd
              subst hd
              simp only [lineDiag]
              decide
        · rcases hport : getField hg "port" with _ | port
          · simp only [hport, List.mem_singleton] at hd
            subst hd
            simp only [reqDiag]
            exact msg_ne_dup _ c
              (head?_append_left _ _ c (head?_append_left pfx _ c hp)) hc
          · simp only [hport] at hd
            rcases hai : asInt port with ⟨res, line⟩
            simp only [hai] at hd
            rcases res with _ | i
            · simp at hd
              subst hd
              simp only [lineDiag]
              decide
            · simp at hd
              obtain ⟨h1, hd⟩ := hd
              subst hd
              simp only [lineDiag]
              decide
      · simp only [List.mem_singleton] at hd
        subst hd
        simp only [lineDiag]
        decide
  · simp only [List.mem_singleton] at hd
    subst hd
    simp only [lineDiag]
    exact msg_ne_dup _ c (head?_append_left pfx _ c hp) hc

theorem resKVPairs_ne_dup (f pfx : String) (c : Char)
    (hp : pfx.data.head? = some c) (hc : c ≠ 'n') :
    ∀ l : List Node, ∀ d ∈ resKVPairs f pfx l, d.msg ≠ dupMsg := by
  suffices h : ∀ (m : Nat) (l : List Node), l.length ≤ m →
      ∀ d ∈ resKVPairs f pfx l, d.msg ≠ dupMsg by
    intro l
    exact h l.length l le_rfl
  intro m
  induction m with
  | zero =>
    intro l hl d hd
    rcases l with _ | ⟨k, rest⟩
    · simp [resKVPairs] at hd
    · simp at hl
  | succ m ih =>
    intro l hl d hd
    rcases l with _ | ⟨k, _ | ⟨v, rest⟩⟩
    · simp [resKVPairs] at hd
    · simp [resKVPairs] at hd
    · unfold resKVPairs at hd
      rw [List.mem_append] at hd
      rcases hd with hd | hd
      · by_cases hk : k.kind = NodeKind.scalar ∧ k.tag = "!!str"
        · rw [if_pos hk] at hd
          by_cases hcpu : k.value = "cpu"
          · rw [if_pos hcpu] at hd
            rcases hai : asInt v with ⟨res, line⟩
            simp only [hai] at hd
            rcases res with _ | i
            · simp at hd
              subst hd
              simp only [lineDiag]
              decide
            · simp at hd
              obtain ⟨h1, hd⟩ := hd
              subst hd
              simp only [lineDiag]
              decide
          · rw [if_neg hcpu] at hd
            by_cases hmem : k.value = "memory"
            · rw [if_pos hmem] at hd
              by_cases hvk : v.kind = NodeKind.scalar ∧ v.tag = "!!str"
              · rw [if_pos hvk] at hd
                by_cases hre : reMem v.value = true
                · rw [if_pos hre] at hd; simp at hd
                · rw [if_neg hre] at hd
                  simp only [List.mem_singleton] at hd
                  subst hd
                  simp only [lineDiag]
                  exact msg_ne_dup _ 'r'
                    (head?_append_left "resources.limits.memory has invalid format " _ 'r'
                      (by decide)) (by decide)
              · rw [if_neg hvk] at hd
                simp only [List.mem_singleton] at hd
                subst hd
                simp only [lineDiag]
                decide
            · rw [if_neg hmem] at hd
              simp at hd
        · rw [if_neg hk] at hd
          simp only [List.mem_singleton] at hd
          subst hd
          simp only [lineDiag]
          exact msg_ne_dup _ c (head?_append_left pfx _ c hp) hc
      · apply ih rest ?_ d hd
        simp at hl
        omega

theorem resKV_ne_dup (f pfx : String) (n : Node) (c : Char)
    (hp : pfx.data.head? = some c) (hc : c ≠ 'n') :
    ∀ d ∈ validateResKVDiags f pfx n, d.msg ≠ dupMsg := by
  intro d hd
  unfold validateResKVDiags at hd
  split at hd
  · exact resKVPairs_ne_dup f pfx c hp hc n.content d hd
  · simp only [List.mem_singleton] at hd
    subst hd
    simp only [lineDiag]
    exact msg_ne_dup _ c (head?_append_left pfx _ c hp) hc

theorem resources_ne_dup (f : String) (n : Node) :
    ∀ d ∈ validateResourcesDiags f n, d.msg ≠ dupMsg := by
  intro d hd
  unfold validateResourcesDiags at hd
  split at hd
  · rw [List.mem_append] at hd
    rcases hd with hd | hd
    · rcases hl : getField n "limits" with _ | lim
      · simp [hl] at hd
      · simp only [hl] at hd
        exact resKV_ne_dup f "resources.limits" lim 'r' (by decide) (by decide) d hd
    · rcases hr : getField n "requests" with _ | req
      · simp [hr] at hd
      · simp only [hr] at hd
        exact resKV_ne_dup f "resources.requests" req 'r' (by decide) (by decide) d hd
  · simp only [List.mem_singleton] at hd
    subst hd
    simp only [lineDiag]
    decide

theorem containerTail_ne_dup (f : String) (item : Node) :
    ∀ d, d ∈ containerImageDiags f item ++ containerPortsDiags f item ++
      containerProbesDiags f item ++ containerResourcesDiags f item →
      d.msg ≠ dupMsg := by
  intro d hd
  simp only [List.append_assoc, List.mem_append] at hd
  rcases hd with hd | hd | hd | hd
  · unfold containerImageDiags at hd
    rcases hi : getField item "image" with _ | img
    · simp only [hi, List.mem_singleton] at hd
      subst hd
      simp only [reqDiag]
      decide
    · simp only [hi] at hd
      split at hd
      · split at hd
        · simp at hd
        · simp only [List.mem_singleton] at hd
          subst hd
          simp only [lineDiag]
          exact msg_ne_dup _ 'i'
            (head?_append_left "image has invalid format " _ 'i' (by decide)) (by decide)
      · simp only [List.mem_singleton] at hd
        subst hd
        simp only [lineDiag]
        decide
  · unfold containerPortsDiags at hd
    rcases hpo : getField item "ports" with _ | ports
    · simp [hpo] at hd
    · simp only [hpo] at hd
      split at hd
      · exact portsLoop_ne_dup f ports.content d hd
      · simp only [List.mem_singleton] at hd
        subst hd
        simp only [lineDiag]
        decide
  · unfold containerProbesDiags at hd
    rw [List.mem_append] at hd
    rcases hd with hd | hd
    · rcases hrp : getField item "readinessProbe" with _ | rp
      · simp [hrp] at hd
      · simp only [hrp] at hd
        exact probe_ne_dup f "readinessProbe" rp 'r' (by decide) (by decide) d hd
    · rcases hlp : getField item "livenessProbe" with _ | lp
      · simp [hlp] at hd
      · simp only [hlp] at hd
        exact probe_ne_dup f "livenessProbe" lp 'l' (by decide) (by decide) d hd
  · unfold containerResourcesDiags at hd
    rcases hres : getField item "resources" with _ | res
    · simp only [hres, List.mem_singleton] at hd
      subst hd
      simp only [reqDiag]
      decide
    · simp only [hres] at hd
      exact resources_ne_dup f res d hd

theorem invMsg_ne_dup (v : String) (h1 : trimSpace v = "" ∨ reSnake v = false) :
    "name has invalid format " ++ q v ≠ dupMsg := by
  intro he
  unfold dupMsg at he
  have hq := append_left_cancel' _ _ _ he
  have hv := q_inj _ _ hq
  subst hv
  rcases h1 with h | h
  · exact absurd h (by decide)
  · exact absurd h (by decide)

/-- C4: for a container item with a valid (string scalar, non-blank,
snake_case) name: if the name is already in the seen set, the item's
diagnostics carry exactly one duplicate-message diagnostic, and it is the
first diagnostic of the item, anchored at that occurrence's own name-node
line; if the name is not yet seen, the item produces no duplicate
diagnostic; in both cases the name is registered, the previous seen names
stay registered, and the containers loop threads the updated set to the
remaining items. -/
theorem container_duplicate_name :
    ∀ (f : String) (item : Node) (rest : List Node) (seen : List String) (w : Node),
      item.kind = NodeKind.mapping →
      getField item "name" = some w →
      w.kind = NodeKind.scalar → w.tag = "!!str" →
      trimSpace w.value ≠ "" → reSnake w.value = true →
      ((w.value ∈ seen →
        countDup (validateContainerItemDiags f item seen).1 = 1 ∧
        (validateContainerItemDiags f item seen).1.head? =
          some (lineDiag f w.line dupMsg)) ∧
       (w.value ∉ seen → countDup (validateContainerItemDiags f item seen).1 = 0) ∧
       w.value ∈ (validateContainerItemDiags f item seen).2 ∧
       (∀ x ∈ seen, x ∈ (validateContainerItemDiags f item seen).2) ∧
       containersLoop f (item :: rest) seen =
         (validateContainerItemDiags f item seen).1 ++
           containersLoop f rest (validateContainerItemDiags f item seen).2) := by
  intro f item rest seen w hmap hget hk ht htrim hsnake
  have hcond : ¬(trimSpace w.value = "" ∨ ¬ reSnake w.value = true) := by
    simp [htrim, hsnake]
  have hstep : containerNameStep f item seen =
      ((if seen.contains w.value then [lineDiag f w.line dupMsg] else []),
        w.value :: seen) := by
    simp only [containerNameStep, hget]
    rw [if_pos ⟨hk, ht⟩, if_neg hcond]
    simp [dupMsg]
  have htail := containerTail_ne_dup f item
  have hsplit1 : (validateContainerItemDiags f item seen).1 =
      (if seen.contains w.value then [lineDiag f w.line dupMsg] else []) ++
        (containerImageDiags f item ++ containerPortsDiags f item ++
          containerProbesDiags f item ++ containerResourcesDiags f item) := by
    simp [validateContainerItemDiags, hstep, List.append_assoc]
  have hsplit2 : (validateContainerItemDiags f item seen).2 = w.value :: seen := by
    simp [validateContainerItemDiags, hstep]
  have htail0 : countDup (containerImageDiags f item ++ containerPortsDiags f item ++
      containerProbesDiags f item ++ containerResourcesDiags f item) = 0 :=
    countDup_eq_zero _ htail
  refine ⟨?_, ?_, ?_, ?_, ?_⟩
  · intro hmem
    have hcon : seen.contains w.value = true := by simpa using hmem
    constructor
    · rw [hsplit1, hcon, if_pos rfl, countDup_append, htail0]
      simp [countDup, lineDiag]
    · rw [hsplit1, hcon, if_pos rfl]
      simp
  · intro hmem
    have hcon : seen.contains w.value = false := by
      simp only [← Bool.not_eq_true]
      simpa using hmem
    rw [hsplit1, hcon, if_neg (by simp), countDup_append, htail0]
    simp [countDup]
  · rw [hsplit2]
    exact List.mem_cons_self _ _
  · intro x hx
    rw [hsplit2]
    exact List.mem_cons_of_mem _ hx
  · simp [containersLoop, hmap]

/-- C4 witness: with web already seen, the valid container named web on
line 6 yields exactly one duplicate diagnostic, first in its item and at
line 6, and with nothing seen it yields none and registers web; the loop
equation holds at those inputs. -/
theorem container_duplicate_name_witness :
    countDup (validateContainerItemDiags "pod.yaml" exGoodContainer ["web"]).1 = 1 ∧
    (validateContainerItemDiags "pod.yaml" exGoodContainer ["web"]).1.head? =
      some (lineDiag "pod.yaml" 6 dupMsg) ∧
    countDup (validateContainerItemDiags "pod.yaml" exGoodContainer []).1 = 0 ∧
    "web" ∈ (validateContainerItemDiags "pod.yaml" exGoodContainer []).2 ∧
    containersLoop "pod.yaml" [exGoodContainer] ["web"] =
      (validateContainerItemDiags "pod.yaml" exGoodContainer ["web"]).1 ++
        containersLoop "pod.yaml" []
          (validateContainerItemDiags "pod.yaml" exGoodContainer ["web"]).2 := by
  have h1 := container_duplicate_name "pod.yaml" exGoodContainer [] ["web"]
    (exStr "web" 6) rfl rfl rfl rfl (by decide) (by decide)
  have h2 := container_duplicate_name "pod.yaml" exGoodContainer [] []
    (exStr "web" 6) rfl rfl rfl rfl (by decide) (by decide)
  refine ⟨(h1.1 (by decide)).1, (h1.1 (by decide)).2, h2.2.1 (by decide), h2.2.2.1,
    h1.2.2.2.2⟩

/-- C9: a container name is registered in the seen set exactly when it is
a string scalar, non-blank after trimming, and snake_case (on top of the
names already seen); and a container whose name is present but invalid
(blank or not snake_case) leaves the seen set unchanged, gets its own
invalid-format diagnostic embedding the offending value, and its item
carries no duplicate diagnostic at all. -/
theorem container_name_registration :
    ∀ (f : String) (item : Node) (seen : List String),
      (∀ v : String, v ∈ (validateContainerItemDiags f item seen).2 ↔
        (v ∈ seen ∨ ∃ w : Node, getField item "name" = some w ∧
          w.kind = NodeKind.scalar ∧ w.tag = "!!str" ∧
          trimSpace w.value ≠ "" ∧ reSnake w.value = true ∧ w.value = v)) ∧
      (∀ w : Node, getField item "name" = some w → w.kind = NodeKind.scalar →
        w.tag = "!!str" → (trimSpace w.value = "" ∨ reSnake w.value = false) →
        (validateContainerItemDiags f item seen).2 = seen ∧
        lineDiag f w.line ("name has invalid format " ++ q w.value) ∈
          (validateContainerItemDiags f item seen).1 ∧
        countDup (validateContainerItemDiags f item seen).1 = 0) := by
  intro f item seen
  constructor
  · intro v
    show v ∈ (containerNameStep f item seen).2 ↔ _
    rcases hget : getField item "name" with _ | nameNode
    · simp [containerNameStep, hget]
    · by_cases hk : nameNode.kind = NodeKind.scalar ∧ nameNode.tag = "!!str"
      · by_cases hcond : trimSpace nameNode.value = "" ∨ ¬ reSnake nameNode.value = true
        · have hstep : (containerNameStep f item seen).2 = seen := by
            simp only [containerNameStep, hget]
            rw [if_pos hk, if_pos hcond]
          rw [hstep]
          constructor
          · exact fun h => Or.inl h
          · rintro (h | ⟨w, hw1, hw2, hw3, hw4, hw5, hw6⟩)
            · exact h
            · have hw := Option.some.inj hw1
              subst hw
              rcases hcond with h' | h'
              · exact absurd h' hw4
              · exact absurd hw5 h'
        · have hstep : (containerNameStep f item seen).2 = nameNode.value :: seen := by
            simp only [containerNameStep, hget]
            rw [if_pos hk, if_neg hcond]
          rw [hstep]
          rw [not_or, not_not] at hcond
          constructor
          · intro h
            rcases List.mem_cons.mp h with h | h
            · exact Or.inr ⟨nameNode, rfl, hk.1, hk.2, hcond.1, hcond.2, h.symm⟩
            · exact Or.inl h
          · rintro (h | ⟨w, hw1, hw2, hw3, hw4, hw5, hw6⟩)
            · exact List.mem_cons_of_mem _ h
            · have hw := Option.some.inj hw1
              subst hw
              rw [← hw6]
              exact List.mem_cons_self _ _
      · have hstep : (containerNameStep f item seen).2 = seen := by
          simp only [containerNameStep, hget]
          rw [if_neg hk]
        rw [hstep]
        constructor
        · exact fun h => Or.inl h
        · rintro (h | ⟨w, hw1, hw2, hw3, hw4, hw5, hw6⟩)
          · exact h
          · have hw := Option.some.inj hw1
            subst hw
            exact absurd ⟨hw2, hw3⟩ hk
  · intro w hget hk ht hcond
    have hcond' : trimSpace w.value = "" ∨ ¬ reSnake w.value = true := by
      rcases hcond with h | h
      · exact Or.inl h
      · exact Or.inr (by simp [h])
    have hstep : containerNameStep f item seen =
        ([lineDiag f w.line ("name has invalid format " ++ q w.value)], seen) := by
      simp only [containerNameStep, hget]
      rw [if_pos ⟨hk, ht⟩, if_pos hcond']
    refine ⟨?_, ?_, ?_⟩
    · simp [validateContainerItemDiags, hstep]
    · simp [validateContainerItemDiags, hstep]
    · have hassoc : (validateContainerItemDiags f item seen).1 =
          [lineDiag f w.line ("name has invalid format " ++ q w.value)] ++
            (containerImageDiags f item ++ containerPortsDiags f item ++
              containerProbesDiags f item ++ containerResourcesDiags f item) := by
        simp [validateContainerItemDiags, hstep, List.append_assoc]
      rw [hassoc, countDup_append, countDup_eq_zero _ (containerTail_ne_dup f item)]
      have hne : (lineDiag f w.line ("name has invalid format " ++ q w.value)).msg ≠
          dupMsg := by
        simp only [lineDiag]
        exact invMsg_ne_dup w.value hcond
      rw [countDup_eq_zero _ (by intro d hd; rw [List.mem_singleton] at hd; subst hd; exact hne)]

/-- C9 witness: a valid container named web registers web in the empty
seen set; an item whose name is the non-snake-case string BAD keeps the
seen set empty, gets an invalid-format diagnostic for BAD on its line,
and no duplicate diagnostic. -/
theorem container_name_registration_witness :
    ("web" ∈ (validateContainerItemDiags "pod.yaml" exGoodContainer []).2 ↔
      ("web" ∈ ([] : List String) ∨ ∃ w : Node,
        getField exGoodContainer "name" = some w ∧
        w.kind = NodeKind.scalar ∧ w.tag = "!!str" ∧
        trimSpace w.value ≠ "" ∧ reSnake w.value = true ∧ w.value = "web")) ∧
    ((validateContainerItemDiags "pod.yaml"
        (exMap 6 [exStr "name" 6, exStr "BAD" 6]) []).2 = [] ∧
      lineDiag "pod.yaml" 6 ("name has invalid format " ++ q "BAD") ∈
        (validateContainerItemDiags "pod.yaml"
          (exMap 6 [exStr "name" 6, exStr "BAD" 6]) []).1 ∧
      countDup (validateContainerItemDiags "pod.yaml"
        (exMap 6 [exStr "name" 6, exStr "BAD" 6]) []).1 = 0) := by
  constructor
  · exact (container_name_registration "pod.yaml" exGoodContainer []).1 "web"
  · exact (container_name_registration "pod.yaml"
      (exMap 6 [exStr "name" 6, exStr "BAD" 6]) []).2 (exStr "BAD" 6) rfl rfl rfl
      (Or.inr (by decide))

theorem weight_pos (n : Node) : 1 ≤ Node.weight n := by
  cases n
  simp [Node.weight]

theorem weightList_le_weight (n : Node) : weightList n.content ≤ Node.weight n := by
  cases n
  simp [Node.weight]

theorem mem_weight : ∀ (l : List Node) (v : Node), v ∈ l → Node.weight v ≤ weightList l := by
  intro l
  induction l with
  | nil => intro v hv; simp at hv
  | cons a rest ih =>
    intro v hv
    rcases List.mem_cons.mp hv with h | h
    · subst h
      simp [weightList]
    · have := ih v h
      simp [weightList]
      omega

theorem findPair_mem (key : String) :
    ∀ (l : List Node) (v : Node), findPair key l = some v → v ∈ l := by
  intro l
  induction l using findPair.induct key with
  | case1 k v rest hcond =>
    intro w hw
    unfold findPair at hw
    rw [if_pos hcond] at hw
    have hv := Option.some.inj hw
    subst hv
    simp
  | case2 k v rest hcond ih =>
    intro w hw
    unfold findPair at hw
    rw [if_neg hcond] at hw
    have := ih w hw
    simp [this]
  | case3 t ht =>
    intro w hw
    rcases t with _ | ⟨a, _ | ⟨b, r⟩⟩
    · simp [findPair] at hw
    · simp [findPair] at hw
    · exact absurd rfl (ht a b r)

theorem getField_weight (n : Node) (key : String) (v : Node)
    (h : getField n key = some v) : Node.weight v < Node.weight n := by
  unfold getField at h
  split at h
  · have hmem := findPair_mem key n.content v h
    have h1 := mem_weight n.content v hmem
    have h2 : Node.weight n = 1 + weightList n.content := by
      cases n
      simp [Node.weight]
    omega
  · simp at h

theorem protoDiags_len (f : String) (n : Node) : (protoDiags f n).length ≤ 1 := by
  unfold protoDiags
  split
  · simp
  · split_ifs <;> simp

theorem containerPortDiags_len (f : String) (n : Node) :
    (validateContainerPortDiags f n).length ≤ 2 := by
  unfold validateContainerPortDiags
  rw [List.length_append]
  have h2 := protoDiags_len f n
  have h1 : (match getField n "containerPort" with
      | none => [reqDiag f "ports.containerPort"]
      | some cp =>
        match asInt cp with
        | (none, line) => [lineDiag f line "containerPort must be int"]
        | (some ival, line) =>
          if ival ≤ 0 ∨ 65536 ≤ ival then
            [lineDiag f line "containerPort value out of range"]
          else []).length ≤ 1 := by
    split
    · simp
    · split
      · simp
      · split_ifs <;> simp
  omega

theorem probeDiags_len (f pfx : String) (n : Node) :
    (validateProbeDiags f pfx n).length ≤ 2 := by
  unfold validateProbeDiags
  split
  · split
    · simp
    · split
      · rw [List.length_append]
        show _ ≤ 1 + 1
        apply Nat.add_le_add
        · split
          · simp
          · split_ifs <;> simp
        · split
          · simp
          · split
            · simp
            · split_ifs <;> simp
      · simp
  · simp

theorem labelsPairs_len (f : String) :
    ∀ l : List Node, (labelsPairs f l).length ≤ weightList l := by
  intro l
  induction l using labelsPairs.induct f with
  | case1 k v rest ih =>
    unfold labelsPairs
    rw [List.length_append, List.length_append]
    have h1 := weight_pos k
    have h2 := weight_pos v
    have hw : weightList (k :: v :: rest) =
        Node.weight k + (Node.weight v + weightList rest) := by
      simp [weightList]
    split_ifs <;> simp <;> omega
  | case2 t ht =>
    rcases t with _ | ⟨a, _ | ⟨b, r⟩⟩
    · simp [labelsPairs]
    · simp [labelsPairs]
    · exact absurd rfl (ht a b r)

theorem resKVPairs_len (f pfx : String) :
    ∀ l : List Node, (resKVPairs f pfx l).length ≤ weightList l := by
  intro l
  induction l using resKVPairs.induct f pfx with
  | case1 k v rest ih =>
    unfold resKVPairs
    rw [List.length_append]
    have h1 := weight_pos k
    have h2 := weight_pos v
    have hw : weightList (k :: v :: rest) =
        Node.weight k + (Node.weight v + weightList rest) := by
      simp [weightList]
    have hblock : (if k.kind = NodeKind.scalar ∧ k.tag = "!!str" then
        if k.value = "cpu" then
          match asInt v with
          | (none, line) => [lineDiag f line "cpu must be int"]
          | (some ival, line) =>
            if ival < 0 then [lineDiag f line "cpu value out of range"] else []
        else if k.value = "memory" then
          if v.kind = NodeKind.scalar ∧ v.tag = "!!str" then
            if reMem v.value then []
            else
              [lineDiag f v.line
                ("resources.limits.memory has invalid format " ++ q v.value)]
          else [lineDiag f v.line "memory must be string"]
        else []
      else [lineDiag f k.line (pfx ++ " key must be string")]).length ≤ 1 := by
      split_ifs <;> try simp
      split
      · simp
      · split_ifs <;> simp
    omega
  | case2 t ht =>
    rcases t with _ | ⟨a, _ | ⟨b, r⟩⟩
    · simp [resKVPairs]
    · simp [resKVPairs]
    · exact absurd rfl (ht a b r)

theorem resKVDiags_len (f pfx : String) (n : Node) :
    (validateResKVDiags f pfx n).length ≤ 1 + Node.weight n := by
  unfold validateResKVDiags
  have h1 := resKVPairs_len f pfx n.content
  have h2 := weightList_le_weight n
  split
  · omega
  · show 1 ≤ 1 + Node.weight n
    omega

theorem resourcesDiags_len (f : String) (n : Node) :
    (validateResourcesDiags f n).length ≤ 2 + 2 * Node.weight n := by
  unfold validateResourcesDiags
  have hp := weight_pos n
  split
  · rw [List.length_append]
    have h1 : (match getField n "limits" with
        | none => []
        | some lim => validateResKVDiags f "resources.limits" lim).length ≤
          1 + Node.weight n := by
      rcases hl : getField n "limits" with _ | lim
      · simp
      · have := resKVDiags_len f "resources.limits" lim
        have := getField_weight n "limits" lim hl
        simp
        omega
    have h2 : (match getField n "requests" with
        | none => []
        | some req => validateResKVDiags f "resources.requests" req).length ≤
          1 + Node.weight n := by
      rcases hr : getField n "requests" with _ | req
      · simp
      · have := resKVDiags_len f "resources.requests" req
        have := getField_weight n "requests" req hr
        simp
        omega
    omega
  · simp
    omega

theorem portsLoop_len (f : String) :
    ∀ l : List Node, (portsLoop f l).length ≤ 2 * weightList l := by
  intro l
  induction l with
  | nil => simp [portsLoop, weightList]
  | cons pn rest ih =>
    unfold portsLoop
    rw [List.length_append]
    have hw : weightList (pn :: rest) = Node.weight pn + weightList rest := by
      simp [weightList]
    have hp := weight_pos pn
    split
    · have := containerPortDiags_len f pn
      omega
    · simp
      omega

theorem containerItemDiags_len (f : String) (item : Node) (seen : List String) :
    (validateContainerItemDiags f item seen).1.length ≤ 10 + 4 * Node.weight item := by
  unfold validateContainerItemDiags
  simp only [List.length_append]
  have hname : (containerNameStep f item seen).1.length ≤ 1 := by
    unfold containerNameStep
    split
    · simp
    · split_ifs <;> simp
  have himg : (containerImageDiags f item).length ≤ 1 := by
    unfold containerImageDiags
    split
    · simp
    · split_ifs <;> simp
  have hports : (containerPortsDiags f item).length ≤ 1 + 2 * Node.weight item := by
    rcases hp : getField item "ports" with _ | ports
    · simp [containerPortsDiags, hp]
    · have hw := getField_weight item "ports" ports hp
      have hwl := weightList_le_weight ports
      have hpl := portsLoop_len f ports.content
      simp only [containerPortsDiags, hp]
      split_ifs with h
      · omega
      · show 1 ≤ 1 + 2 * Node.weight item
        omega
  have hprobes : (containerProbesDiags f item).length ≤ 4 := by
    unfold containerProbesDiags
    rw [List.length_append]
    have h1 : (match getField item "readinessProbe" with
        | none => []
        | some rp => validateProbeDiags f "readinessProbe" rp).length ≤ 2 := by
      split
      · simp
      · exact probeDiags_len f "readinessProbe" _
    have h2 : (match getField item "livenessProbe" with
        | none => []
        | some lp => validateProbeDiags f "livenessProbe" lp).length ≤ 2 := by
      split
      · simp
      · exact probeDiags_len f "livenessProbe" _
    omega
  have hres : (containerResourcesDiags f item).length ≤ 2 + 2 * Node.weight item := by
    rcases hr : getField item "resources" with _ | res
    · simp only [containerResourcesDiags, hr]
      show 1 ≤ 2 + 2 * Node.weight item
      omega
    · have h1 := resourcesDiags_len f res
      have h2 := getField_weight item "resources" res hr
      simp only [containerResourcesDiags, hr]
      omega
  omega

theorem containersLoop_len (f : String) :
    ∀ (l : List Node) (seen : List String),
      (containersLoop f l seen).length ≤ 14 * weightList l := by
  intro l
  induction l with
  | nil => intro seen; simp [containersLoop, weightList]
  | cons item rest ih =>
    intro seen
    unfold containersLoop
    have hw : weightList (item :: rest) = Node.weight item + weightList rest := by
      simp [weightList]
    have hp := weight_pos item
    split
    · rw [List.length_append]
      have h1 := containerItemDiags_len f item seen
      have h2 := ih (validateContainerItemDiags f item seen).2
      omega
    · simp only [List.length_cons]
      have h2 := ih seen
      omega

theorem podSpecOsDiags_len (f : String) (o : Option Node) :
    (podSpecOsDiags f o).length ≤ 1 := by
  unfold podSpecOsDiags
  split
  · simp
  · split
    · split_ifs <;> simp
    · split
      · simp
      · split_ifs <;> simp
    · simp

theorem podSpecDiags_len (f : String) (n : Node) :
    (validatePodSpecDiags f n).length ≤ 14 * Node.weight n + 3 := by
  unfold validatePodSpecDiags
  rw [List.length_append]
  have h1 := podSpecOsDiags_len f (getField n "os")
  have h2 : (podSpecContainersDiags f (getField n "containers")).length ≤
      14 * Node.weight n + 2 := by
    rcases hc : getField n "containers" with _ | c
    · simp only [hc, podSpecContainersDiags]
      show 1 ≤ 14 * Node.weight n + 2
      omega
    · have hw := getField_weight n "containers" c hc
      have hwl := weightList_le_weight c
      have hloop := containersLoop_len f c.content []
      simp only [hc, podSpecContainersDiags]
      split_ifs with hk hlen
      · rw [List.length_append]
        simp only [List.length_singleton]
        omega
      · rw [List.length_append]
        simp only [List.length_nil]
        omega
      · show 1 ≤ 14 * Node.weight n + 2
        omega
  omega

theorem objectMetaDiags_len (f : String) (n : Node) :
    (validateObjectMetaDiags f n).length ≤ Node.weight n + 2 := by
  unfold validateObjectMetaDiags
  rw [List.length_append, List.length_append]
  have hname : (metaNameDiags f n).length ≤ 1 := by
    unfold metaNameDiags
    split
    · simp
    · split_ifs <;> simp
  have hns : (metaNamespaceDiags f n).length ≤ 1 := by
    unfold metaNamespaceDiags
    split
    · simp
    · split_ifs <;> simp
  have hlab : (metaLabelsDiags f n).length ≤ Node.weight n := by
    rcases hl : getField n "labels" with _ | labels
    · have := weight_pos n
      simp only [metaLabelsDiags, hl]
      show 0 ≤ Node.weight n
      omega
    · have hw := getField_weight n "labels" labels hl
      have hwl := weightList_le_weight labels
      have hll := labelsPairs_len f labels.content
      simp only [metaLabelsDiags, hl]
      split_ifs with h
      · omega
      · show 1 ≤ Node.weight n
        omega
  omega

theorem validatePod_decomp (f : String) (doc : Node) :
    validatePodDiags f doc =
      podSegApiVersion f (getField doc "apiVersion") ++
      podSegKind f (getField doc "kind") ++
      podSegMetadata f (getField doc "metadata") ++
      podSegSpec f (getField doc "spec") := by
  cases h1 : getField doc "apiVersion" <;> cases h2 : getField doc "kind" <;>
    cases h3 : getField doc "metadata" <;> cases h4 : getField doc "spec" <;>
    simp [validatePodDiags, podSegApiVersion, podSegKind, podSegMetadata, podSegSpec,
      h1, h2, h3, h4]

theorem podDiags_len (f : String) (doc : Node) :
    (validatePodDiags f doc).length ≤ 15 * Node.weight doc + 7 := by
  rw [validatePod_decomp]
  rw [List.length_append, List.length_append, List.length_append]
  have h1 : (podSegApiVersion f (getField doc "apiVersion")).length ≤ 1 := by
    unfold podSegApiVersion
    split
    · simp
    · split_ifs <;> simp
  have h2 : (podSegKind f (getField doc "kind")).length ≤ 1 := by
    unfold podSegKind
    split
    · simp
    · split_ifs <;> simp
  have h3 : (podSegMetadata f (getField doc "metadata")).length ≤
      Node.weight doc + 2 := by
    rcases hm : getField doc "metadata" with _ | md
    · simp only [hm, podSegMetadata]
      show 1 ≤ Node.weight doc + 2
      omega
    · have hw := getField_weight doc "metadata" md hm
      have hb := objectMetaDiags_len f md
      simp only [hm, podSegMetadata]
      split_ifs with h
      · omega
      · show 1 ≤ Node.weight doc + 2
        omega
  have h4 : (podSegSpec f (getField doc "spec")).length ≤
      14 * Node.weight doc + 3 := by
    rcases hs : getField doc "spec" with _ | sp
    · simp only [hs, podSegSpec]
      show 1 ≤ 14 * Node.weight doc + 3
      omega
    · have hw := getField_weight doc "spec" sp hs
      have hb := podSpecDiags_len f sp
      simp only [hs, podSegSpec]
      split_ifs with h
      · omega
      · show 1 ≤ 14 * Node.weight doc + 3
        omega
  omega

/-- C8: the validation traversal is a total function of the finite input
tree: for every document the diagnostics of the Pod validator are a
well-defined finite list whose length is bounded linearly by the tree's
size, and the whole multi-document run is likewise total. In this
embedding every validator is a structurally recursive function over the
child lists, which is exactly the bounded recursion the claim asserts. -/
theorem validator_total_bounded :
    ∀ (f : String) (doc : Node) (r : Reporter) (docs : List Node),
      (∃ ds : List ErrOut, validatePodDiags f doc = ds ∧
        ds.length ≤ 15 * Node.weight doc + 7) ∧
      (∃ res : Reporter, runDocs r docs = res) :=
  fun f doc r docs => ⟨⟨_, rfl, podDiags_len f doc⟩, ⟨_, rfl⟩⟩

end YamlValid
